import Mathlib

/-!
Shallow embedding of the NGX Stock Oracle keeper (Python sources under
`keeper/`): the update-decision filter, the batching loop, the gas gate with
its gas estimation, the receipt handling of the chain client wrapper, and the
NGX data-string parser.  Prices are modelled as rationals; the external chain
is modelled as an environment value per submission attempt.
-/

namespace NGXOracle

/-! ## Data model -/

/-- A transaction receipt as seen by `_send_transaction`
(`blockchain_interface.py`): a `status` field (1 = confirmed success),
plus block number and gas used. -/
structure Receipt where
  status : ℕ
  blockNumber : ℕ
  gasUsed : ℕ
deriving Repr, DecidableEq

/-- Outcome of actually sending a signed transaction: either the awaited
receipt, or an exception (transport error / timeout) raised inside the `try`
block of `_send_transaction`. -/
inductive TxResult where
  | receipt (r : Receipt)
  | error
deriving Repr, DecidableEq

/-- The state of the external chain at one submission attempt: the current
network gas price in Gwei (read by the gas gate) and what sending the
transaction would produce. -/
structure BatchEnv where
  currentGasGwei : ℚ
  txResult : TxResult
deriving Repr, DecidableEq

/-- `OracleContract._send_transaction` (`blockchain_interface.py` lines
71-89): sign, send, wait for the receipt; return the receipt when
`receipt['status'] == 1`, return `None` on an explicit failure receipt, and
return `None` when any exception (transport error, timeout) is raised. -/
def sendTransaction : TxResult → Option Receipt
  | .receipt r => if r.status = 1 then some r else none
  | .error => none

/-- The gas estimation of `OracleContract.batch_update_prices`
(`blockchain_interface.py` lines 192-200): `base_gas + n * gas_per_stock`,
capped at `max_gas`. -/
def gasEstimate (numSymbols : ℕ) : ℕ :=
  let base_gas := 200000
  let gas_per_stock := 150000
  let gas_estimate := base_gas + numSymbols * gas_per_stock
  let max_gas := 8000000
  min gas_estimate max_gas

/-- `OracleContract.batch_update_prices` (`blockchain_interface.py` lines
168-231): returns `None` for an empty batch; returns `None` when the current
gas price exceeds `max_gas_price_gwei` (the gas gate); otherwise builds a
transaction carrying `gasEstimate` gas and sends it through
`sendTransaction`.  The second component records the gas attached to the
built transaction (`none` when no transaction was built). -/
def batch_update_prices (env : BatchEnv) (symbol_price_pairs : List (String × ℚ))
    (max_gas_price_gwei : ℚ) : Option Receipt × Option ℕ :=
  if symbol_price_pairs = [] then (none, none)
  else if env.currentGasGwei > max_gas_price_gwei then (none, none)
  else
    let gas := gasEstimate symbol_price_pairs.length
    (sendTransaction env.txResult, some gas)

/-! ## PriceMemory: the keeper's `last_prices` Python dict -/

/-- Lookup in the `last_prices` dict, modelled as an association list:
`d[k]` or absence (`k not in d`). -/
def dictGet (d : List (String × ℚ)) (k : String) : Option ℚ :=
  match d with
  | [] => none
  | (k₁, v) :: rest => if k₁ = k then some v else dictGet rest k

/-- Assignment `d[k] = v` on the `last_prices` dict: overwrite the existing
entry for `k`, or append a new one. -/
def dictInsert (d : List (String × ℚ)) (k : String) (v : ℚ) : List (String × ℚ) :=
  match d with
  | [] => [(k, v)]
  | (k₁, v₁) :: rest => if k₁ = k then (k, v) :: rest else (k₁, v₁) :: dictInsert rest k v

/-! ## ChangeFilter -/

/-- `NGXOracleKeeper.should_update_price` (`ngx_oracle_keeper.py` lines
95-117): update when the symbol is absent from `last_prices`, when the stored
price is zero, or when `abs((new - old) / old * 100)` is at least the
configured threshold. -/
def should_update_price (last_prices : List (String × ℚ))
    (min_price_change_percent : ℚ) (symbol : String) (new_price : ℚ) : Bool :=
  match dictGet last_prices symbol with
  | none => true
  | some old_price =>
    if old_price = 0 then true
    else
      let price_change_pct := |(new_price - old_price) / old_price * 100|
      decide (price_change_pct ≥ min_price_change_percent)

/-! ## Batcher -/

/-- The chunking loop of `NGXOracleKeeper.update_prices`
(`ngx_oracle_keeper.py` lines 165-166): `stocks_to_update[i:i+batch_size]`
for `i = 0, batch_size, 2*batch_size, ...`. -/
def chunks (batch_size : ℕ) : List α → List (List α)
  | [] => []
  | x :: xs => (x :: xs.take (batch_size - 1)) :: chunks batch_size (xs.drop (batch_size - 1))
termination_by l => l.length
decreasing_by
  simp only [List.length_drop, List.length_cons]
  omega

/-! ## SubmissionCoordinator state and per-batch step -/

/-- The keeper's mutable state: `last_prices` plus the `stats` counters
(`ngx_oracle_keeper.py` lines 72-81). -/
structure KeeperState where
  last_prices : List (String × ℚ)
  successful_updates : ℕ
  failed_updates : ℕ
  total_stocks_updated : ℕ
  total_updates : ℕ
deriving Repr, DecidableEq

/-- The `for symbol, price in batch` loop after a successful receipt
(`ngx_oracle_keeper.py` lines 179-180): write every submitted price into
`last_prices`. -/
def setPrices (d : List (String × ℚ)) (batch : List (String × ℚ)) : List (String × ℚ) :=
  batch.foldl (fun acc sp => dictInsert acc sp.1 sp.2) d

/-- One iteration of the batch loop of `NGXOracleKeeper.update_prices`
(`ngx_oracle_keeper.py` lines 172-186): submit the batch; on a (truthy)
receipt write back all prices and bump the success counters, otherwise bump
`failed_updates`. -/
def processBatch (max_gas_price_gwei : ℚ) (env : BatchEnv) (st : KeeperState)
    (batch : List (String × ℚ)) : KeeperState :=
  match (batch_update_prices env batch max_gas_price_gwei).1 with
  | some _ =>
    { st with
      last_prices := setPrices st.last_prices batch
      successful_updates := st.successful_updates + 1
      total_stocks_updated := st.total_stocks_updated + batch.length }
  | none => { st with failed_updates := st.failed_updates + 1 }

/-- The batch loop of `NGXOracleKeeper.update_prices` run over all batches in
order, the `i`-th submission attempt seeing chain environment `envs i`; every
batch is processed regardless of earlier outcomes. -/
def processBatchesFrom (max_gas_price_gwei : ℚ) (envs : ℕ → BatchEnv) (i : ℕ)
    (st : KeeperState) : List (List (String × ℚ)) → KeeperState
  | [] => st
  | b :: rest =>
    processBatchesFrom max_gas_price_gwei envs (i + 1)
      (processBatch max_gas_price_gwei (envs i) st b) rest

/-- The configurable knobs read by `update_prices` (`config.py`):
`MIN_PRICE_CHANGE_PERCENT`, `BATCH_SIZE`, `MAX_GAS_PRICE_GWEI`. -/
structure KeeperConfig where
  min_price_change_percent : ℚ
  batch_size : ℕ
  max_gas_price_gwei : ℚ
deriving Repr

/-- The defaults of `config.py`: 0.5 percent threshold, batches of 20,
50 Gwei ceiling. -/
def defaultConfig : KeeperConfig :=
  { min_price_change_percent := 1/2, batch_size := 20, max_gas_price_gwei := 50 }

/-- `NGXOracleKeeper.update_prices` (`ngx_oracle_keeper.py` lines 143-198)
from the filtering step on: filter the fetched `all_stocks` through
`should_update_price`, return early when nothing needs updating (before
`total_updates` is bumped), otherwise chunk into batches, run the batch loop,
and bump `total_updates`.  Returns the final state, the cycle's boolean
result, and the number of chain-client submission calls made (one per
batch). -/
def update_prices (cfg : KeeperConfig) (envs : ℕ → BatchEnv)
    (all_stocks : List (String × ℚ)) (st : KeeperState) :
    KeeperState × Bool × ℕ :=
  let stocks_to_update := all_stocks.filter
    (fun sp => should_update_price st.last_prices cfg.min_price_change_percent sp.1 sp.2)
  if stocks_to_update = [] then (st, true, 0)
  else
    let batches := chunks cfg.batch_size stocks_to_update
    let st₁ := processBatchesFrom cfg.max_gas_price_gwei envs 0 st batches
    ({ st₁ with total_updates := st₁.total_updates + 1 }, true, batches.length)

/-! ## NGX data parser (`ngx_fetcher.py`, `NGXDataParser.parse_ngx_string`)

The Python parser runs `re.findall` with the pattern
`([A-Z0-9]+)\s+N([\d,]+\.?\d*)([\d\.\-\+]+)?\s*%` and then turns each match
into a stock entry, skipping entries whose price fails to parse or exceeds
50000.  For this particular pattern greedy matching without backtracking is
equivalent to the regex engine's behaviour: every point where the engine
could backtrack places a character from one class where the next pattern
element demands an incompatible character, so no shorter capture can rescue a
failed continuation. -/

/-- The class `[A-Z0-9]` of the symbol group. -/
def isSymChar (c : Char) : Bool :=
  (decide ('A' ≤ c) && decide (c ≤ 'Z')) || c.isDigit

/-- The class `\d`. -/
def isDigitChar (c : Char) : Bool := c.isDigit

/-- The class `[\d,]` of the integer part of the price group. -/
def isDigitOrComma (c : Char) : Bool := c.isDigit || c = ','

/-- The class `[\d\.\-\+]` of the change group. -/
def isChangeChar (c : Char) : Bool := c.isDigit || c = '.' || c = '-' || c = '+'

/-- The class `\s` (ASCII whitespace). -/
def isSpaceChar (c : Char) : Bool :=
  c = ' ' || c = '\t' || c = '\n' || c = '\r' || c = '\x0b' || c = '\x0c'

/-- Match the pattern `([A-Z0-9]+)\s+N([\d,]+\.?\d*)([\d\.\-\+]+)?\s*%` at the
start of `cs`; on success return the three captured groups and the suffix
after the match. -/
def matchFrom (cs : List Char) : Option ((String × String × String) × List Char) :=
  let g₁ := cs.takeWhile isSymChar
  let r₁ := cs.dropWhile isSymChar
  if g₁.isEmpty then none
  else
    let ws := r₁.takeWhile isSpaceChar
    let r₂ := r₁.dropWhile isSpaceChar
    if ws.isEmpty then none
    else
      match r₂ with
      | 'N' :: r₃ =>
        let g₂ := r₃.takeWhile isDigitOrComma
        let r₄ := r₃.dropWhile isDigitOrComma
        if g₂.isEmpty then none
        else
          let dotRest : List Char × List Char :=
            match r₄ with
            | '.' :: t => (['.'], t)
            | _ => ([], r₄)
          let g₂b := dotRest.2.takeWhile isDigitChar
          let r₅ := dotRest.2.dropWhile isDigitChar
          let g₃ := r₅.takeWhile isChangeChar
          let r₆ := r₅.dropWhile isChangeChar
          let r₇ := r₆.dropWhile isSpaceChar
          match r₇ with
          | '%' :: r₈ =>
            some ((String.mk g₁, String.mk (g₂ ++ dotRest.1 ++ g₂b), String.mk g₃), r₈)
          | _ => none
      | _ => none

/-- `re.findall`: scan left to right, at each position try `matchFrom`; on a
match record the groups and resume after the match, otherwise advance one
character.  Fuelled by the input length, which suffices because every match
consumes at least one character. -/
def findallAux (fuel : ℕ) (cs : List Char) : List (String × String × String) :=
  match fuel, cs with
  | 0, _ => []
  | _, [] => []
  | f + 1, c :: cs₁ =>
    match matchFrom (c :: cs₁) with
    | some (g, rest) => g :: findallAux f rest
    | none => findallAux f cs₁

/-- All matches of the NGX pattern in `s`, in order. -/
def findall (s : String) : List (String × String × String) :=
  findallAux s.length s.data

/-- A parsed stock entry (`ngx_fetcher.py` lines 60-66; the timestamp and
source fields carry no data relevant to the embedding). -/
structure Stock where
  symbol : String
  price : ℚ
  change : ℚ
deriving Repr, DecidableEq

/-- `price_str.replace(',', '')`. -/
def removeCommas (s : String) : String :=
  String.mk (s.data.filter (fun c => c ≠ ','))

/-- The digits of `cs` read as a natural number. -/
def parseDigits (cs : List Char) : ℕ :=
  cs.foldl (fun acc c => acc * 10 + (c.toNat - 48)) 0

/-- Python `float()` on an unsigned numeral over digits and dots: accepts
`digits`, `digits.digits`, `.digits`, `digits.` (at least one digit, at most
one dot); anything else raises `ValueError`, modelled as `none`. -/
def parseUnsigned (cs : List Char) : Option ℚ :=
  let intPart := cs.takeWhile isDigitChar
  let rest := cs.dropWhile isDigitChar
  match rest with
  | [] => if intPart.isEmpty then none else some (parseDigits intPart)
  | '.' :: frac =>
    if frac.all isDigitChar then
      if intPart.isEmpty && frac.isEmpty then none
      else some ((parseDigits intPart : ℚ) + (parseDigits frac : ℚ) / (10 ^ frac.length))
    else none
  | _ => none

/-- Python `float()` restricted to the character classes reachable from the
regex groups: an optional leading sign, then an unsigned numeral. -/
def pyFloat (s : String) : Option ℚ :=
  match s.data with
  | '+' :: rest => parseUnsigned rest
  | '-' :: rest => (parseUnsigned rest).map Neg.neg
  | cs => parseUnsigned cs

/-- The per-match body of `parse_ngx_string` (`ngx_fetcher.py` lines 47-69):
strip commas from the price, parse price and change (an empty change group
means 0.0 without parsing), skip the entry when either parse raises or when
`price > 50000`. -/
def processMatch (m : String × String × String) : Option Stock :=
  let symbol := m.1
  let price_str := removeCommas m.2.1
  let change_str := m.2.2
  match pyFloat price_str with
  | none => none
  | some price =>
    match (if change_str = "" then some 0 else pyFloat change_str) with
    | none => none
    | some change =>
      if price > 50000 then none
      else some { symbol := symbol, price := price, change := change }

/-- `NGXDataParser.parse_ngx_string` (`ngx_fetcher.py` lines 32-71). -/
def parse_ngx_string (data_string : String) : List Stock :=
  (findall data_string).filterMap processMatch

/-! ## Helper lemmas -/

theorem abs_pct_eq (old new : ℚ) (hold : 0 < old) :
    |(new - old) / old * 100| = |new - old| / old * 100 := by
  rw [abs_mul, abs_div, abs_of_pos hold]
  norm_num

theorem chunks_flatten (n : ℕ) : ∀ l : List α, (chunks n l).flatten = l
  | [] => by simp [chunks]
  | x :: xs => by
    rw [chunks, List.flatten_cons, chunks_flatten n (xs.drop (n - 1))]
    rw [List.cons_append, List.take_append_drop]
termination_by l => l.length
decreasing_by
  simp only [List.length_drop, List.length_cons]
  omega

theorem chunks_length_le (n : ℕ) (hn : 1 ≤ n) :
    ∀ l : List α, ∀ b ∈ chunks n l, b.length ≤ n
  | [] => by simp [chunks]
  | x :: xs => by
    intro b hb
    rw [chunks, List.mem_cons] at hb
    rcases hb with hb | hb
    · subst hb
      simp only [List.length_cons, List.length_take]
      omega
    · exact chunks_length_le n hn (xs.drop (n - 1)) b hb
termination_by l => l.length
decreasing_by
  simp only [List.length_drop, List.length_cons]
  omega

theorem sendTransaction_status (t : TxResult) (r : Receipt)
    (h : sendTransaction t = some r) : r.status = 1 := by
  cases t with
  | receipt r₁ =>
    by_cases h1 : r₁.status = 1
    · simp only [sendTransaction, if_pos h1, Option.some.injEq] at h
      rw [← h]
      exact h1
    · simp [sendTransaction, h1] at h
  | error => simp [sendTransaction] at h

theorem batch_update_prices_some (env : BatchEnv) (batch : List (String × ℚ))
    (maxg : ℚ) (r : Receipt) (h : (batch_update_prices env batch maxg).1 = some r) :
    sendTransaction env.txResult = some r := by
  by_cases h1 : batch = []
  · simp [batch_update_prices, h1] at h
  · by_cases h2 : env.currentGasGwei > maxg
    · simp [batch_update_prices, h1, h2] at h
    · simpa [batch_update_prices, h1, h2] using h

theorem dictGet_dictInsert_self (d : List (String × ℚ)) (k : String) (v : ℚ) :
    dictGet (dictInsert d k v) k = some v := by
  induction d with
  | nil => simp [dictInsert, dictGet]
  | cons hd tl ih =>
    obtain ⟨k₁, v₁⟩ := hd
    by_cases h : k₁ = k <;> simp [dictInsert, dictGet, h, ih]

theorem dictGet_dictInsert_ne (d : List (String × ℚ)) (k k₂ : String) (v : ℚ)
    (h : k ≠ k₂) : dictGet (dictInsert d k v) k₂ = dictGet d k₂ := by
  induction d with
  | nil => simp [dictInsert, dictGet, h]
  | cons hd tl ih =>
    obtain ⟨k₁, v₁⟩ := hd
    by_cases h1 : k₁ = k
    · subst h1
      simp [dictInsert, dictGet, h]
    · simp [dictInsert, dictGet, h1, ih]

theorem dictGet_setPrices_not_mem (batch : List (String × ℚ))
    (d : List (String × ℚ)) (s : String) (h : s ∉ batch.map Prod.fst) :
    dictGet (setPrices d batch) s = dictGet d s := by
  induction batch generalizing d with
  | nil => rfl
  | cons hd tl ih =>
    obtain ⟨k, v⟩ := hd
    simp only [List.map_cons, List.mem_cons, not_or] at h
    rw [setPrices, List.foldl_cons]
    rw [show tl.foldl (fun acc sp => dictInsert acc sp.1 sp.2) (dictInsert d k v)
        = setPrices (dictInsert d k v) tl from rfl]
    rw [ih _ h.2, dictGet_dictInsert_ne _ _ _ _ (fun hk => h.1 hk.symm)]

theorem dictGet_setPrices_mem (batch : List (String × ℚ))
    (d : List (String × ℚ)) (s : String) (p : ℚ)
    (hnd : (batch.map Prod.fst).Nodup) (hmem : (s, p) ∈ batch) :
    dictGet (setPrices d batch) s = some p := by
  induction batch generalizing d with
  | nil => cases hmem
  | cons hd tl ih =>
    obtain ⟨k, v⟩ := hd
    simp only [List.map_cons, List.nodup_cons] at hnd
    rw [setPrices, List.foldl_cons]
    rw [show tl.foldl (fun acc sp => dictInsert acc sp.1 sp.2) (dictInsert d k v)
        = setPrices (dictInsert d k v) tl from rfl]
    rcases List.mem_cons.mp hmem with hh | hh
    · injection hh with hs hp
      subst hs; subst hp
      have hnotin : s ∉ tl.map Prod.fst := hnd.1
      rw [dictGet_setPrices_not_mem tl _ s hnotin, dictGet_dictInsert_self]
    · exact ih (dictInsert d k v) hnd.2 hh

/-! ## Claims -/

/-- C3: for every candidate sequence and every `batch_size ≥ 1`, the batcher
partitions the candidates into consecutive order-preserving chunks:
concatenating all batches reproduces the filtered candidate sequence exactly,
and no batch holds more than `batch_size` items. -/
theorem batcher_partitions (l : List (String × ℚ)) (n : ℕ) (hn : 1 ≤ n) :
    (chunks n l).flatten = l ∧ ∀ b ∈ chunks n l, b.length ≤ n :=
  ⟨chunks_flatten n l, chunks_length_le n hn l⟩

/-- C3 witness: three candidates chunked with batch size 2. -/
theorem batcher_partitions_witness :
    (chunks 2 [("A", (1 : ℚ)), ("B", 2), ("C", 3)]).flatten
        = [("A", (1 : ℚ)), ("B", 2), ("C", 3)] ∧
    ∀ b ∈ chunks 2 [("A", (1 : ℚ)), ("B", 2), ("C", 3)], b.length ≤ 2 :=
  batcher_partitions [("A", (1 : ℚ)), ("B", 2), ("C", 3)] 2 (by decide)

/-- C4: for a stored positive old price, the filter emits a candidate exactly
when `|new - old| / old * 100` is at least `min_change_percent`; the boundary
case is included because the source comparison is `>=`. -/
theorem filter_threshold_iff (mem : List (String × ℚ)) (minc old new : ℚ)
    (symbol : String) (h : dictGet mem symbol = some old) (hold : 0 < old) :
    should_update_price mem minc symbol new = true ↔
      |new - old| / old * 100 ≥ minc := by
  simp only [should_update_price, h]
  rw [if_neg hold.ne', decide_eq_true_eq, abs_pct_eq old new hold]

unseal Rat.add Rat.mul Rat.sub Rat.inv Rat.ofScientific in
/-- C4 witness: old price 100, new price 100.5, threshold 0.5 percent sits
exactly on the boundary and is emitted. -/
theorem filter_threshold_iff_witness :
    (should_update_price [("A", 100)] (1/2) "A" (201/2) = true ↔
      |(201/2 : ℚ) - 100| / 100 * 100 ≥ 1/2) ∧
    should_update_price [("A", 100)] (1/2) "A" (201/2) = true :=
  ⟨filter_threshold_iff [("A", 100)] (1/2) 100 (201/2) "A" (by decide) (by norm_num),
   by decide⟩

/-- C6: a symbol absent from `last_prices` always yields a candidate,
whatever its price and whatever the configured threshold. -/
theorem unseen_symbol_always_candidate (mem : List (String × ℚ)) (minc : ℚ)
    (symbol : String) (price : ℚ) (h : dictGet mem symbol = none) :
    should_update_price mem minc symbol price = true := by
  rw [should_update_price, h]

/-- C6 witness: empty memory, arbitrary price, huge threshold. -/
theorem unseen_symbol_always_candidate_witness :
    should_update_price [] 1000000 "GTCO" 0 = true :=
  unseen_symbol_always_candidate [] 1000000 "GTCO" 0 (by decide)

/-- C7: a stored old price of zero always yields a candidate via the early
`old_price == 0` branch, for every new price and threshold, so the
percentage-change division is never reached on a zero denominator. -/
theorem zero_old_price_always_candidate (mem : List (String × ℚ)) (minc : ℚ)
    (symbol : String) (new_price : ℚ) (h : dictGet mem symbol = some 0) :
    should_update_price mem minc symbol new_price = true := by
  rw [should_update_price, h]
  simp

/-- C7 witness: stored price 0, new price 0, threshold 5: still a candidate,
which the division path (pct 0 below threshold 5) could not produce. -/
theorem zero_old_price_always_candidate_witness :
    should_update_price [("OANDO", 0)] 5 "OANDO" 0 = true :=
  zero_old_price_always_candidate [("OANDO", 0)] 5 "OANDO" 0 (by decide)

/-- C5: whenever `batch_update_prices` builds a transaction, the gas attached
equals `min(200000 + n * 150000, 8000000)` for `n` the batch size, and hence
never exceeds the 8000000 cap. -/
theorem estimated_gas_capped (env : BatchEnv) (batch : List (String × ℚ))
    (maxg : ℚ) (g : ℕ) (h : (batch_update_prices env batch maxg).2 = some g) :
    g = min (200000 + batch.length * 150000) 8000000 ∧ g ≤ 8000000 := by
  by_cases h1 : batch = []
  · simp [batch_update_prices, h1] at h
  · by_cases h2 : env.currentGasGwei > maxg
    · simp [batch_update_prices, h1, h2] at h
    · simp only [batch_update_prices, if_neg h1, if_neg h2, Option.some.injEq] at h
      subst h
      exact ⟨rfl, Nat.min_le_right _ _⟩

/-- C5 witness: a one-item batch at gas price 10 under ceiling 50 carries
`min(200000 + 150000, 8000000) = 350000` gas. -/
theorem estimated_gas_capped_witness :
    (350000 : ℕ) = min (200000 + [("A", (1 : ℚ))].length * 150000) 8000000 ∧
    (350000 : ℕ) ≤ 8000000 :=
  estimated_gas_capped ⟨10, TxResult.error⟩ [("A", (1 : ℚ))] 50 350000 (by decide)

/-- C1 counterexample: gas price 60 exceeds the ceiling 50, the batch is
gas-gated, yet the keeper's `else` branch increments `failed_updates` from 0
to 1 — the skip is not counted separately from failures as the claim
states. -/
theorem gas_gate_skip_increments_failed :
    (60 : ℚ) > 50 ∧
    (batch_update_prices ⟨60, TxResult.error⟩ [("A", 101)] 50).1 = none ∧
    (processBatch 50 ⟨60, TxResult.error⟩
        ⟨[("A", 100)], 0, 0, 0, 0⟩ [("A", 101)]).failed_updates = 1 := by
  refine ⟨by norm_num, by decide, by decide⟩

/-- C1 amended: when the gas gate rejects a batch (current gas price above
the configured maximum), the batch is skipped: `last_prices` is left
unchanged for every symbol in the batch and the cycle continues to the next
batch; however the skip is counted by incrementing the same `failed_updates`
counter used for failures (there is no separate skip counter). -/
theorem gas_gate_skip_behaviour (maxg : ℚ) (envs : ℕ → BatchEnv) (i : ℕ)
    (st : KeeperState) (batch : List (String × ℚ))
    (rest : List (List (String × ℚ)))
    (hgas : (envs i).currentGasGwei > maxg) :
    processBatch maxg (envs i) st batch
        = { st with failed_updates := st.failed_updates + 1 } ∧
    processBatchesFrom maxg envs i st (batch :: rest)
        = processBatchesFrom maxg envs (i + 1)
            { st with failed_updates := st.failed_updates + 1 } rest := by
  have h1 : (batch_update_prices (envs i) batch maxg).1 = none := by
    by_cases hb : batch = [] <;> simp [batch_update_prices, hb, hgas]
  refine ⟨by simp [processBatch, h1], ?_⟩
  rw [processBatchesFrom]
  simp [processBatch, h1]

/-- C1 amended witness: gas 60 over ceiling 50, one batch skipped, the next
batch still processed from the state with only `failed_updates` bumped. -/
theorem gas_gate_skip_behaviour_witness :
    processBatch 50 ((fun _ => (⟨60, TxResult.error⟩ : BatchEnv)) 0)
        ⟨[("A", 100)], 0, 0, 0, 0⟩ [("A", 101)]
      = ⟨[("A", 100)], 0, 0 + 1, 0, 0⟩ ∧
    processBatchesFrom 50 (fun _ => (⟨60, TxResult.error⟩ : BatchEnv)) 0
        ⟨[("A", 100)], 0, 0, 0, 0⟩ [[("A", 101)], [("B", 5)]]
      = processBatchesFrom 50 (fun _ => (⟨60, TxResult.error⟩ : BatchEnv)) 1
          ⟨[("A", 100)], 0, 0 + 1, 0, 0⟩ [[("B", 5)]] :=
  gas_gate_skip_behaviour 50 (fun _ => (⟨60, TxResult.error⟩ : BatchEnv)) 0
    ⟨[("A", 100)], 0, 0, 0, 0⟩ [("A", 101)] [[("B", 5)]] (by norm_num)

/-- C2: a symbol's stored last price is overwritten with its submitted price
exactly when the chain client returned a confirmed-success receipt for the
batch containing it (the receipt a truthy result carries always has status
1); a failed or gas-gated batch (result `none`) leaves `last_prices`
unchanged for every symbol. -/
theorem memory_update_iff_batch_success (maxg : ℚ) (env : BatchEnv)
    (st : KeeperState) (batch : List (String × ℚ))
    (hnd : (batch.map Prod.fst).Nodup) :
    (∀ r, (batch_update_prices env batch maxg).1 = some r →
      r.status = 1 ∧ ∀ sp ∈ batch,
        dictGet (processBatch maxg env st batch).last_prices sp.1 = some sp.2) ∧
    ((batch_update_prices env batch maxg).1 = none →
      (processBatch maxg env st batch).last_prices = st.last_prices) := by
  constructor
  · intro r hr
    refine ⟨sendTransaction_status env.txResult r
      (batch_update_prices_some env batch maxg r hr), ?_⟩
    intro sp hsp
    simp only [processBatch, hr]
    exact dictGet_setPrices_mem batch st.last_prices sp.1 sp.2 hnd hsp
  · intro hn
    simp [processBatch, hn]

unseal Rat.add Rat.mul Rat.sub Rat.inv Rat.ofScientific in
/-- C2 witness: a confirmed receipt (status 1) for the batch `[("A", 2)]`
over memory `[("A", 1)]`: the receipt has status 1 and the stored price of
`A` becomes 2. -/
theorem memory_update_iff_batch_success_witness :
    Receipt.status ⟨1, 5, 100⟩ = 1 ∧
    ∀ sp ∈ [("A", (2 : ℚ))],
      dictGet (processBatch 50 ⟨10, TxResult.receipt ⟨1, 5, 100⟩⟩
          ⟨[("A", 1)], 0, 0, 0, 0⟩ [("A", 2)]).last_prices sp.1 = some sp.2 :=
  (memory_update_iff_batch_success 50 ⟨10, TxResult.receipt ⟨1, 5, 100⟩⟩
      ⟨[("A", 1)], 0, 0, 0, 0⟩ [("A", 2)] (by decide)).1 ⟨1, 5, 100⟩ (by decide)

/-- C8: a chain-reported failure (non-success receipt or transport error,
with the gas gate passing) increments `failed_updates`, leaves `last_prices`
and the other counters unchanged, and the loop still processes every
remaining batch of the cycle from that state. -/
theorem submission_failure_isolated (maxg : ℚ) (envs : ℕ → BatchEnv) (i : ℕ)
    (st : KeeperState) (batch : List (String × ℚ))
    (rest : List (List (String × ℚ))) (hne : batch ≠ [])
    (hgas : ¬ (envs i).currentGasGwei > maxg)
    (hfail : sendTransaction (envs i).txResult = none) :
    processBatch maxg (envs i) st batch
        = { st with failed_updates := st.failed_updates + 1 } ∧
    processBatchesFrom maxg envs i st (batch :: rest)
        = processBatchesFrom maxg envs (i + 1)
            { st with failed_updates := st.failed_updates + 1 } rest := by
  have h1 : (batch_update_prices (envs i) batch maxg).1 = none := by
    simp [batch_update_prices, hne, hgas, hfail]
  refine ⟨by simp [processBatch, h1], ?_⟩
  rw [processBatchesFrom]
  simp [processBatch, h1]

/-- C8 witness: an explicit failure receipt (status 0) at gas 10 under
ceiling 50: the failed counter is bumped, memory kept, next batch still
processed. -/
theorem submission_failure_isolated_witness :
    processBatch 50 ((fun _ => (⟨10, TxResult.receipt ⟨0, 5, 100⟩⟩ : BatchEnv)) 0)
        ⟨[("A", 100)], 0, 0, 0, 0⟩ [("A", 101)]
      = ⟨[("A", 100)], 0, 0 + 1, 0, 0⟩ ∧
    processBatchesFrom 50 (fun _ => (⟨10, TxResult.receipt ⟨0, 5, 100⟩⟩ : BatchEnv)) 0
        ⟨[("A", 100)], 0, 0, 0, 0⟩ [[("A", 101)], [("B", 5)]]
      = processBatchesFrom 50 (fun _ => (⟨10, TxResult.receipt ⟨0, 5, 100⟩⟩ : BatchEnv)) 1
          ⟨[("A", 100)], 0, 0 + 1, 0, 0⟩ [[("B", 5)]] :=
  submission_failure_isolated 50 (fun _ => (⟨10, TxResult.receipt ⟨0, 5, 100⟩⟩ : BatchEnv)) 0
    ⟨[("A", 100)], 0, 0, 0, 0⟩ [("A", 101)] [[("B", 5)]]
    (by decide) (by norm_num) (by decide)

/-- C9: when the filter produces zero candidates the cycle ends successfully
with zero batches: the chain client is never invoked (zero submission calls)
and the state — `last_prices` and all counters — is returned unchanged. -/
theorem empty_candidates_zero_batches (cfg : KeeperConfig) (envs : ℕ → BatchEnv)
    (all_stocks : List (String × ℚ)) (st : KeeperState)
    (h : all_stocks.filter (fun sp =>
        should_update_price st.last_prices cfg.min_price_change_percent sp.1 sp.2) = []) :
    update_prices cfg envs all_stocks st = (st, true, 0) := by
  simp only [update_prices, h]
  rfl

unseal Rat.add Rat.mul Rat.sub Rat.inv Rat.ofScientific in
/-- C9 witness: one observation equal to the stored price under the default
0.5 percent threshold: no candidates, no batches, state unchanged. -/
theorem empty_candidates_zero_batches_witness :
    update_prices defaultConfig (fun _ => (⟨10, TxResult.error⟩ : BatchEnv))
        [("A", 100)] ⟨[("A", 100)], 1, 2, 3, 4⟩
      = (⟨[("A", 100)], 1, 2, 3, 4⟩, true, 0) :=
  empty_candidates_zero_batches defaultConfig (fun _ => (⟨10, TxResult.error⟩ : BatchEnv))
    [("A", 100)] ⟨[("A", 100)], 1, 2, 3, 4⟩ (by decide)

/-- C10: for every input string, every entry produced by the NGX parser has
price at most 50000; entries parsing above 50000 are silently dropped. -/
theorem parsed_price_at_most_50000 (s : String) (stk : Stock)
    (h : stk ∈ parse_ngx_string s) : stk.price ≤ 50000 := by
  rw [parse_ngx_string, List.mem_filterMap] at h
  obtain ⟨m, _, hm⟩ := h
  rw [processMatch] at hm
  split at hm
  · cases hm
  · split at hm
    · cases hm
    · split at hm
      · cases hm
      · rename_i hbig
        injection hm with hm
        rw [← hm]
        exact le_of_not_lt hbig

unseal Rat.add Rat.mul Rat.sub Rat.inv Rat.ofScientific in
/-- C10 witness: the sample line from the source docstring parses to DANGCEM
at price 450.5, which is within the 50000 bound. -/
theorem parsed_price_at_most_50000_witness :
    Stock.price ⟨"DANGCEM", 450.5, 0⟩ ≤ 50000 :=
  parsed_price_at_most_50000 "DANGCEM N450.500.00 %" ⟨"DANGCEM", 450.5, 0⟩
    (by decide)

end NGXOracle
